import Mathlib

/-!
Verification of the caddy jsonpath-filter middleware.

The middleware intercepts an HTTP response with a capture sink, and when the
captured response declares a JSON content type it decodes the body, optionally
applies a JSONPath query taken from a request header, and re-emits the
(possibly filtered) document; otherwise it replays the captured response
verbatim.  Bodies are modelled as `List Char`, headers as finite multimaps
`String → List String` (the empty list standing for an absent key).
-/

/-- Characters are classified as decimal digits exactly as by the byte range
check of a JSON number scanner. -/
def isDigitC (c : Char) : Bool := '0' ≤ c && c ≤ '9'

/-- The opening-brace character, written via its code point. -/
def lbrace : Char := Char.ofNat 123

/-- The closing-brace character, written via its code point. -/
def rbrace : Char := Char.ofNat 125

/-- Generic JSON value tree: the target of decoding a response body, as in
the Go code's `interface\x7b\x7d` tree produced by `json.Unmarshal` (objects as
key/value maps, arrays, strings, numbers, booleans, null).  Numbers are
restricted to naturals in this model. -/
inductive JsonVal where
  | jnull
  | jbool (b : Bool)
  | jnum (n : Nat)
  | jstr (s : String)
  | jarr (xs : List JsonVal)
  | jobj (fs : List (String × JsonVal))

/-- The shape `json.Unmarshal` decodes into for `map[string]interface\x7b\x7d`:
a JSON object given as a field list. -/
abbrev Obj := List (String × JsonVal)

/-- Digit character for a digit value (0..9). -/
def digitChar (d : Nat) : Char :=
  match d with
  | 0 => '0' | 1 => '1' | 2 => '2' | 3 => '3' | 4 => '4'
  | 5 => '5' | 6 => '6' | 7 => '7' | 8 => '8' | _ => '9'

/-- Little-endian digit list of a natural, with explicit recursion fuel. -/
def natDigitsRev (fuel n : Nat) : List Nat :=
  match fuel with
  | 0 => []
  | f + 1 => if n = 0 then [] else n % 10 :: natDigitsRev f (n / 10)

/-- Decimal rendering of a natural number (most significant digit first). -/
def printNat (n : Nat) : List Char :=
  if n = 0 then ['0'] else (natDigitsRev n n).reverse.map digitChar

mutual

/-- JSON serialization of a value, as performed when the middleware re-encodes
the (possibly filtered) document.  Modelled from the spec: the encoder is the
standard library's `json` encoder, treated per the spec as "encode value to
JSON bytes"; it emits no insignificant whitespace. -/
def printVal : JsonVal → List Char
  | .jnull => ['n', 'u', 'l', 'l']
  | .jbool true => ['t', 'r', 'u', 'e']
  | .jbool false => ['f', 'a', 'l', 's', 'e']
  | .jnum n => printNat n
  | .jstr s => '"' :: s.data ++ ['"']
  | .jarr [] => ['[', ']']
  | .jarr (x :: xs) => '[' :: printVal x ++ printArrTail xs ++ [']']
  | .jobj [] => [lbrace, rbrace]
  | .jobj ((k, v) :: fs) =>
      lbrace :: '"' :: k.data ++ ['"', ':'] ++ printVal v ++ printObjTail fs ++ [rbrace]

/-- Serialization of the remaining elements of a non-empty array. -/
def printArrTail : List JsonVal → List Char
  | [] => []
  | x :: xs => ',' :: printVal x ++ printArrTail xs

/-- Serialization of the remaining fields of a non-empty object. -/
def printObjTail : List (String × JsonVal) → List Char
  | [] => []
  | (k, v) :: fs => ',' :: '"' :: k.data ++ ['"', ':'] ++ printVal v ++ printObjTail fs

end

/-- A character list is safe to appear inside a JSON string literal without
escaping: it contains no quote and no backslash. -/
def strSafeL (cs : List Char) : Bool := cs.all fun c => !(c == '"' || c == '\\')

mutual

/-- Well-formedness of a JSON value for the unescaped serializer: every string
(and every object key) is escape-free. -/
def wfB : JsonVal → Bool
  | .jnull => true
  | .jbool _ => true
  | .jnum _ => true
  | .jstr s => strSafeL s.data
  | .jarr xs => wfArr xs
  | .jobj fs => wfObj fs

/-- Well-formedness of a list of array elements. -/
def wfArr : List JsonVal → Bool
  | [] => true
  | x :: xs => wfB x && wfArr xs

/-- Well-formedness of a list of object fields. -/
def wfObj : List (String × JsonVal) → Bool
  | [] => true
  | (k, v) :: fs => strSafeL k.data && wfB v && wfObj fs

end

mutual

/-- Recursion fuel sufficient for the decoder to re-read a serialized value. -/
def fuelJ : JsonVal → Nat
  | .jnull => 1
  | .jbool _ => 1
  | .jnum _ => 1
  | .jstr _ => 1
  | .jarr xs => 1 + fuelArr xs
  | .jobj fs => 1 + fuelObj fs

/-- Fuel for the elements of an array. -/
def fuelArr : List JsonVal → Nat
  | [] => 0
  | x :: xs => fuelJ x + 1 + fuelArr xs

/-- Fuel for the fields of an object. -/
def fuelObj : List (String × JsonVal) → Nat
  | [] => 0
  | (_, v) :: fs => fuelJ v + 1 + fuelObj fs

end

/-- Collect the body of a JSON string literal up to the closing quote.
Escapes are not supported: a backslash makes decoding fail. -/
def parseStrBody : List Char → Option (List Char × List Char)
  | [] => none
  | c :: cs =>
    if c = '"' then some ([], cs)
    else if c = '\\' then none
    else (parseStrBody cs).map fun p => (c :: p.1, p.2)

/-- Split off the maximal leading run of digit characters. -/
def takeDigits : List Char → List Char × List Char
  | [] => ([], [])
  | c :: cs =>
    if isDigitC c then
      let p := takeDigits cs
      (c :: p.1, p.2)
    else ([], c :: cs)

/-- Value of a big-endian digit-character list, with accumulator. -/
def digitsToNat (acc : Nat) (cs : List Char) : Nat :=
  cs.foldl (fun a c => a * 10 + (c.toNat - 48)) acc

/-- Does the list start with the given character? -/
def headIs (cs : List Char) (c : Char) : Bool :=
  match cs with
  | [] => false
  | x :: _ => x = c

/-- Recursive-descent JSON reader, used to model `json.Unmarshal`.
Modelled from the spec: "attempt to decode the body into a generic structured
value (object/array/scalar tree)".  It reads one value and returns it with the
unconsumed remainder; `fuel` bounds the recursion depth.  The tail of an array
(resp. object) is read by re-entering the reader on the remainder with a
reopened `[` (resp. `\x7b`). -/
def parseVal (fuel : Nat) (cs : List Char) : Option (JsonVal × List Char) :=
  match fuel, cs with
  | 0, _ => none
  | _, [] => none
  | fuel + 1, c :: rest =>
    if c = 'n' then
      match rest with
      | 'u' :: 'l' :: 'l' :: r => some (.jnull, r)
      | _ => none
    else if c = 't' then
      match rest with
      | 'r' :: 'u' :: 'e' :: r => some (.jbool true, r)
      | _ => none
    else if c = 'f' then
      match rest with
      | 'a' :: 'l' :: 's' :: 'e' :: r => some (.jbool false, r)
      | _ => none
    else if c = '"' then
      match parseStrBody rest with
      | some (s, r) => some (.jstr (String.mk s), r)
      | none => none
    else if c = '[' then
      if headIs rest ']' then some (.jarr [], rest.tail)
      else
        match parseVal fuel rest with
        | some (v, ',' :: r) =>
          match parseVal fuel ('[' :: r) with
          | some (.jarr xs, r2) => some (.jarr (v :: xs), r2)
          | _ => none
        | some (v, ']' :: r) => some (.jarr [v], r)
        | _ => none
    else if c = lbrace then
      if headIs rest rbrace then some (.jobj [], rest.tail)
      else
        match rest with
        | '"' :: r1 =>
          match parseStrBody r1 with
          | some (k, ':' :: r2) =>
            match parseVal fuel r2 with
            | some (v, c3 :: r4) =>
              if c3 = ',' then
                match parseVal fuel (lbrace :: r4) with
                | some (.jobj fs, r5) => some (.jobj ((String.mk k, v) :: fs), r5)
                | _ => none
              else if c3 = rbrace then some (.jobj [(String.mk k, v)], r4)
              else none
            | _ => none
          | _ => none
        | _ => none
    else if isDigitC c then
      let p := takeDigits (c :: rest)
      some (.jnum (digitsToNat 0 p.1), p.2)
    else none

/-- Decode a whole body as one JSON value, requiring full consumption:
the model of a `json.Unmarshal` call on the captured body. -/
def decode (cs : List Char) : Option JsonVal :=
  match parseVal (2 * cs.length + 2) cs with
  | some (v, []) => some v
  | _ => none

/-- Decode a body into `map[string]interface\x7b\x7d` as the Go code does:
decoding succeeds only when the top-level value is an object. -/
def decodeObj (cs : List Char) : Option Obj :=
  match decode cs with
  | some (.jobj m) => some m
  | _ => none

/-- HTTP header set: a finite multimap from (canonical) header names to value
lists, as Go's `http.Header`; an absent key maps to the empty list. -/
abbrev Header := String → List String

/-- The empty header set, as built by `make(http.Header)`. -/
def emptyHeader : Header := fun _ => []

/-- Model of `http.Header.Set`: replace the key's values with the single given value. -/
def hSet (h : Header) (k v : String) : Header :=
  fun k' => if k' = k then [v] else h k'

/-- Model of `http.Header.Del`: remove the key. -/
def hDel (h : Header) (k : String) : Header :=
  fun k' => if k' = k then [] else h k'

/-- Model of `http.Header.Get`: the first value of the key, or "" when absent. -/
def hGet (h : Header) (k : String) : String :=
  match h k with
  | [] => ""
  | v :: _ => v

/-- The header copy loop `for k, v := range src \x7b dst[k] = v \x7d`: every key
present in `src` overwrites the corresponding entry of `dst`. -/
def copyAll (src dst : Header) : Header :=
  fun k => if src k = [] then dst k else src k

/-- Model of `strings.Contains`: does `sub` occur as a contiguous substring of `s`?
(Case-sensitive, exactly as in Go.) -/
def listPrefixOf : List Char → List Char → Bool
  | [], _ => true
  | _ :: _, [] => false
  | a :: as, b :: bs => a = b && listPrefixOf as bs

/-- Substring occurrence on character lists. -/
def listContains (hay needle : List Char) : Bool :=
  match hay with
  | [] => needle.isEmpty
  | _ :: rest => listPrefixOf needle hay || listContains rest needle

/-- Model of `strings.Contains` on strings. -/
def goContains (s sub : String) : Bool := listContains s.toList sub.toList

/-- The `responseCapture` struct of the middleware: the capture sink standing
in for the real `http.ResponseWriter` while the next handler runs. -/
structure ResponseCapture where
  header : Header
  status : Nat
  body : List Char
  wroteHeader : Bool

/-- Model of `newResponseCapture`: fresh header map, status 200, empty body. -/
def newResponseCapture : ResponseCapture :=
  { header := emptyHeader, status := 200, body := [], wroteHeader := false }

/-- Model of `responseCapture.WriteHeader`: the first call commits the status; later
calls are ignored. -/
def ResponseCapture.writeHeaderC (rc : ResponseCapture) (s : Nat) : ResponseCapture :=
  if rc.wroteHeader then rc else { rc with status := s, wroteHeader := true }

/-- Model of `responseCapture.Write`: commit status 200 if none was set, then append
the bytes to the buffered body. -/
def ResponseCapture.writeC (rc : ResponseCapture) (b : List Char) : ResponseCapture :=
  let rc' := if rc.wroteHeader then rc else rc.writeHeaderC 200
  { rc' with body := rc'.body ++ b }

/-- One call the origin handler can make on the capture sink:
`Header().Set`, `WriteHeader`, or `Write`. -/
inductive CaptureOp where
  | setHeader (k v : String)
  | writeHeader (s : Nat)
  | write (b : List Char)

/-- Effect of one origin-handler call on the capture sink.  `Header()` returns
the live header map, so `setHeader` mutates it directly. -/
def stepOp (rc : ResponseCapture) : CaptureOp → ResponseCapture
  | .setHeader k v => { rc with header := hSet rc.header k v }
  | .writeHeader s => rc.writeHeaderC s
  | .write b => rc.writeC b

/-- Run a whole origin-handler interaction against the capture sink. -/
def runOps (rc : ResponseCapture) (ops : List CaptureOp) : ResponseCapture :=
  ops.foldl stepOp rc

/-- Is the call an explicit status-set (`WriteHeader`)? -/
def isStatusSet : CaptureOp → Bool
  | .writeHeader _ => true
  | _ => false

/-- Is the call a body write? -/
def isBodyWrite : CaptureOp → Bool
  | .write _ => true
  | _ => false

/-- The real response transport: header map, at most one committed status,
and the bytes that reached the client. -/
structure RealSink where
  header : Header
  status : Option Nat
  body : List Char

/-- A fresh real sink: nothing written yet. -/
def freshSink : RealSink := { header := emptyHeader, status := none, body := [] }

/-- Model of `http.ResponseWriter.WriteHeader` on the real transport: the first call
commits the status, later calls are ignored. -/
def RealSink.writeHeaderR (w : RealSink) (s : Nat) : RealSink :=
  match w.status with
  | some _ => w
  | none => { w with status := some s }

/-- Model of `http.ResponseWriter.Write` on the real transport: commit status 200 if
none was committed, then append the bytes. -/
def RealSink.writeR (w : RealSink) (b : List Char) : RealSink :=
  let w' := match w.status with
            | some _ => w
            | none => w.writeHeaderR 200
  { w' with body := w'.body ++ b }

/-- Model of `applyJSONPathFilter`: run the (black-box) JSONPath evaluator on the
decoded document; a query error is wrapped as a query failure, and a result
that is not an object is rejected. -/
def applyJSONPathFilter (eva : String → Obj → Except String JsonVal)
    (data : Obj) (query : String) : Except String Obj :=
  match eva query data with
  | .error e => .error ("JSONPath query failed: " ++ e)
  | .ok r =>
    match r with
    | .jobj m => .ok m
    | _ => .error "JSONPath query did not return an object"

/-- The query phase of `JSONPathFilter.ServeHTTP` (source lines 33-43): read
the JSONPath query from the request header named by the configuration; when it
is non-empty run `applyJSONPathFilter` and fail on its error, otherwise keep
the whole decoded document as the output. -/
def filterOutput (eva : String → Obj → Except String JsonVal)
    (headerName : String) (reqHeader : Header) (responseBody : Obj) :
    Except String JsonVal :=
  let jsonPathQuery := hGet reqHeader headerName
  if jsonPathQuery ≠ "" then
    match applyJSONPathFilter eva responseBody jsonPathQuery with
    | .error e => .error e
    | .ok m => .ok (.jobj m)
  else .ok (.jobj responseBody)

/-- Model of `JSONPathFilter.ServeHTTP` after the next handler has filled the capture
sink: inspect the captured Content-Type; on a JSON content type decode the
body, optionally filter it by the query taken from the request header, copy
the captured headers with Content-Type forced and Content-Length dropped, and
write the re-encoded document; otherwise replay the captured response
verbatim.  The JSONPath engine `eva` is a parameter (an external collaborator
of the middleware).  Returns the final real sink and the error returned to the
caller, if any. -/
def serveHTTP (eva : String → Obj → Except String JsonVal)
    (headerName : String) (reqHeader : Header)
    (capture : ResponseCapture) (w : RealSink) : RealSink × Option String :=
  let contentType := hGet capture.header "Content-Type"
  if goContains contentType "application/json" then
    match decodeObj capture.body with
    | none => (w, some "failed to unmarshal JSON")
    | some responseBody =>
      match filterOutput eva headerName reqHeader responseBody with
      | .error e => (w, some e)
      | .ok output =>
        let h := hDel (hSet (copyAll capture.header w.header) "Content-Type" "application/json") "Content-Length"
        let w1 : RealSink := { w with header := h }
        let w2 := w1.writeHeaderR capture.status
        let w3 := w2.writeR (printVal output)
        (w3, none)
  else
    let w1 : RealSink := { w with header := copyAll capture.header w.header }
    let w2 := w1.writeHeaderR capture.status
    let w3 := w2.writeR capture.body
    (w3, none)

/-- Split a character list at dots. -/
def splitDots : List Char → List (List Char)
  | [] => [[]]
  | c :: cs =>
    if c = '.' then [] :: splitDots cs
    else
      match splitDots cs with
      | f :: r => (c :: f) :: r
      | [] => [[c]]

/-- First field of an object with the given key. -/
def lookupKey (m : Obj) (k : String) : Option JsonVal :=
  (m.find? fun p => p.1 == k).map fun p => p.2

/-- Follow a member path down a JSON value. -/
def walkPath : List String → JsonVal → Except String JsonVal
  | [], v => .ok v
  | k :: ks, .jobj m =>
    match lookupKey m k with
    | some v => walkPath ks v
    | none => .error ("unknown key " ++ k)
  | _ :: _, _ => .error "not an object"

/-- Modelled from the spec: the Query Evaluator collaborator
`evaluate(document, queryString) -> (value, error)` (the external JSONPath
engine, which is not part of this repository).  It implements root member
access `$.k1.k2...`, enough for the concrete queries of the spec's scenarios;
anything else is a query error. -/
def dotPathEval (query : String) (data : Obj) : Except String JsonVal :=
  match query.toList with
  | ['$'] => .ok (.jobj data)
  | '$' :: '.' :: rest => walkPath ((splitDots rest).map String.mk) (.jobj data)
  | _ => .error "should be a path string or a query program"

/-- Does the list not start with a digit (so a maximal digit run ends here)? -/
def notDigitStart : List Char → Bool
  | [] => true
  | c :: _ => !isDigitC c

/-- A captured plain-text response with a multi-valued header (fixture). -/
def capText : ResponseCapture :=
  { header := fun k => if k = "Content-Type" then ["text/plain"]
      else if k = "Set-Cookie" then ["a=1", "b=2"] else [],
    status := 201, body := ['h', 'i'], wroteHeader := true }

/-- Request headers carrying the query `$.b` under the default name (fixture). -/
def reqB : Header := hSet emptyHeader "X-JsonPath" "$.b"

/-- Captured response with an uppercase JSON content type and a non-JSON body
(fixture). -/
def capUpper : ResponseCapture :=
  { header := hSet emptyHeader "Content-Type" "Application/JSON; charset=utf-8",
    status := 200, body := String.toList "not json", wroteHeader := true }

/-- Captured JSON response with the spec's nested body (fixture). -/
def capNested : ResponseCapture :=
  { header := hSet emptyHeader "Content-Type" "application/json",
    status := 200, body := String.toList "\x7b\"a\":1,\"b\":\x7b\"c\":2\x7d\x7d",
    wroteHeader := true }

/-- Captured JSON-typed response whose body is the scalar `1` (fixture). -/
def capScalar : ResponseCapture :=
  { header := hSet emptyHeader "Content-Type" "application/json",
    status := 200, body := ['1'], wroteHeader := true }

/-- Captured JSON-typed response whose body is not JSON at all (fixture). -/
def capBad : ResponseCapture :=
  { header := hSet emptyHeader "Content-Type" "application/json",
    status := 502, body := String.toList "not json", wroteHeader := true }

/-- Captured JSON response with a charset parameter, a stale Content-Length
and a multi-valued trace header (fixture). -/
def capSmall : ResponseCapture :=
  { header := fun k => if k = "Content-Type" then ["application/json; charset=utf-8"]
      else if k = "Content-Length" then ["7"]
      else if k = "X-Trace" then ["t1", "t2"] else [],
    status := 203, body := String.toList "\x7b\"a\":1\x7d", wroteHeader := true }

/-- Request headers carrying the query `$.nonexistent` (fixture). -/
def reqNX : Header := hSet emptyHeader "X-JsonPath" "$.nonexistent"

/-- Request headers carrying the query `$.a` (fixture). -/
def reqA : Header := hSet emptyHeader "X-JsonPath" "$.a"

/-- A real sink that already carries a body byte (fixture). -/
def wPrior : RealSink := { header := emptyHeader, status := none, body := ['z'] }

theorem digitChar_isDigit : ∀ d : Nat, d < 10 → isDigitC (digitChar d) = true := by
  decide

theorem digitChar_val : ∀ d : Nat, d < 10 → (digitChar d).toNat - 48 = d := by
  decide

theorem digit_ne (c : Char) (hc : isDigitC c = true) :
    c ≠ 'n' ∧ c ≠ 't' ∧ c ≠ 'f' ∧ c ≠ '"' ∧ c ≠ '[' ∧ c ≠ lbrace ∧
      c ≠ ']' ∧ c ≠ rbrace ∧ c ≠ ',' := by
  refine ⟨?_, ?_, ?_, ?_, ?_, ?_, ?_, ?_, ?_⟩ <;>
    · rintro rfl
      revert hc
      decide

theorem natDigitsRev_zero (f : Nat) : natDigitsRev f 0 = [] := by
  cases f <;> simp [natDigitsRev]

theorem natDigitsRev_lt (f : Nat) : ∀ n d, d ∈ natDigitsRev f n → d < 10 := by
  induction f with
  | zero => intro n d h; simp [natDigitsRev] at h
  | succ f IH =>
    intro n d h
    by_cases hn : n = 0
    · simp [natDigitsRev, hn] at h
    · simp only [natDigitsRev, if_neg hn, List.mem_cons] at h
      rcases h with h | h
      · omega
      · exact IH _ _ h

theorem natDigitsRev_ne_nil (f n : Nat) (hn : n ≠ 0) (hf : f ≠ 0) :
    natDigitsRev f n ≠ [] := by
  cases f with
  | zero => exact absurd rfl hf
  | succ f => simp [natDigitsRev, if_neg hn]

theorem digitsToNat_map (L : List Nat) (hL : ∀ d ∈ L, d < 10) : ∀ acc : Nat,
    digitsToNat acc (L.map digitChar) = L.foldl (fun a d => a * 10 + d) acc := by
  induction L with
  | nil => intro acc; rfl
  | cons d ds IH =>
    intro acc
    have hd : d < 10 := hL d (List.mem_cons_self d ds)
    have h1 : digitsToNat acc ((d :: ds).map digitChar)
        = digitsToNat (acc * 10 + ((digitChar d).toNat - 48)) (ds.map digitChar) := rfl
    rw [h1, digitChar_val d hd, List.foldl_cons]
    exact IH (fun x hx => hL x (List.mem_cons_of_mem d hx)) _

theorem foldl_natDigitsRev (f : Nat) : ∀ n, n ≠ 0 → n ≤ f → ∀ acc : Nat,
    ((natDigitsRev f n).reverse).foldl (fun a d => a * 10 + d) acc
      = acc * 10 ^ (natDigitsRev f n).length + n := by
  induction f with
  | zero => intro n hn hf; omega
  | succ f IH =>
    intro n hn hf acc
    simp only [natDigitsRev, if_neg hn, List.reverse_cons, List.foldl_append,
      List.length_cons]
    by_cases h10 : n / 10 = 0
    · rw [h10, natDigitsRev_zero]
      simp only [List.reverse_nil, List.foldl_nil, List.length_nil, List.foldl_cons]
      have : n % 10 = n := Nat.mod_eq_of_lt (by omega)
      simp [this, pow_succ]
    · have hle : n / 10 ≤ f := by
        have := Nat.div_lt_self (Nat.pos_of_ne_zero hn) (by norm_num : 1 < 10)
        omega
      rw [IH (n / 10) h10 hle acc]
      simp only [List.foldl_cons, List.foldl_nil, pow_succ]
      have := Nat.div_add_mod n 10
      ring_nf
      omega

theorem digitsToNat_printNat (n : Nat) : digitsToNat 0 (printNat n) = n := by
  unfold printNat
  by_cases h : n = 0
  · subst h; decide
  · rw [if_neg h,
      digitsToNat_map _ (fun d hd => natDigitsRev_lt n n d (List.mem_reverse.mp hd)),
      foldl_natDigitsRev n n h le_rfl 0]
    simp

theorem printNat_digits (n : Nat) : ∀ c ∈ printNat n, isDigitC c = true := by
  intro c hc
  unfold printNat at hc
  by_cases h : n = 0
  · simp [h] at hc
    subst hc; decide
  · rw [if_neg h] at hc
    rcases List.mem_map.mp hc with ⟨d, hd, rfl⟩
    exact digitChar_isDigit d (natDigitsRev_lt n n d (List.mem_reverse.mp hd))

theorem printNat_ne_nil (n : Nat) : printNat n ≠ [] := by
  unfold printNat
  by_cases h : n = 0
  · simp [h]
  · rw [if_neg h]
    simp only [ne_eq, List.map_eq_nil_iff, List.reverse_eq_nil_iff]
    exact natDigitsRev_ne_nil n n h h

theorem takeDigits_append (ds : List Char) (rest : List Char)
    (hds : ∀ c ∈ ds, isDigitC c = true) (hrest : notDigitStart rest = true) :
    takeDigits (ds ++ rest) = (ds, rest) := by
  induction ds with
  | nil =>
    simp only [List.nil_append]
    cases rest with
    | nil => rfl
    | cons c r =>
      simp only [notDigitStart, Bool.not_eq_true'] at hrest
      simp [takeDigits, hrest]
  | cons c ds IH =>
    have hc : isDigitC c = true := hds c (List.mem_cons_self c ds)
    simp only [List.cons_append, takeDigits, hc, if_pos]
    rw [List.append_eq, IH (fun x hx => hds x (List.mem_cons_of_mem c hx))]

theorem parseStrBody_append (s rest : List Char) (hs : strSafeL s = true) :
    parseStrBody (s ++ '"' :: rest) = some (s, rest) := by
  induction s with
  | nil => simp [parseStrBody]
  | cons c s IH =>
    simp only [strSafeL, List.all_cons, Bool.and_eq_true, Bool.not_eq_true',
      Bool.or_eq_false_iff, beq_eq_false_iff_ne, ne_eq] at hs
    obtain ⟨⟨hq, hb⟩, hsafe⟩ := hs
    simp only [List.cons_append, parseStrBody, if_neg hq, if_neg hb]
    rw [List.append_eq, IH hsafe]
    rfl

theorem parseStrBody_safe : ∀ cs s r, parseStrBody cs = some (s, r) → strSafeL s = true := by
  intro cs
  induction cs with
  | nil => intro s r h; simp [parseStrBody] at h
  | cons c cs IH =>
    intro s r h
    simp only [parseStrBody] at h
    by_cases hq : c = '"'
    · rw [if_pos hq] at h
      simp only [Option.some.injEq, Prod.mk.injEq] at h
      obtain ⟨rfl, rfl⟩ := h
      rfl
    · rw [if_neg hq] at h
      by_cases hb : c = '\\'
      · rw [if_pos hb] at h; simp at h
      · rw [if_neg hb] at h
        rcases Option.map_eq_some'.mp h with ⟨⟨s0, r0⟩, hps, heq⟩
        simp only [Prod.mk.injEq] at heq
        obtain ⟨hs, hr⟩ := heq
        subst hs
        simp only [strSafeL, List.all_cons, Bool.and_eq_true, Bool.not_eq_true',
          Bool.or_eq_false_iff, beq_eq_false_iff_ne, ne_eq]
        exact ⟨⟨hq, hb⟩, IH s0 r0 hps⟩

theorem fuelJ_pos (v : JsonVal) : 1 ≤ fuelJ v := by
  cases v <;> simp [fuelJ]

theorem string_mk_data (s : String) : String.mk s.data = s := by
  obtain ⟨l⟩ := s
  rfl

theorem printVal_cons (v : JsonVal) :
    ∃ c t, printVal v = c :: t ∧ c ≠ ']' ∧ c ≠ rbrace ∧ c ≠ ',' := by
  cases v with
  | jnull => exact ⟨'n', _, rfl, by decide, by decide, by decide⟩
  | jbool b =>
    cases b
    · exact ⟨'f', _, rfl, by decide, by decide, by decide⟩
    · exact ⟨'t', _, rfl, by decide, by decide, by decide⟩
  | jnum n =>
    cases hpn : printNat n with
    | nil => exact absurd hpn (printNat_ne_nil n)
    | cons c t =>
      have hc : isDigitC c = true :=
        printNat_digits n c (by rw [hpn]; exact List.mem_cons_self c t)
      obtain ⟨-, -, -, -, -, -, h7, h8, h9⟩ := digit_ne c hc
      exact ⟨c, t, by simp only [printVal]; exact hpn, h7, h8, h9⟩
  | jstr s => exact ⟨'"', _, rfl, by decide, by decide, by decide⟩
  | jarr xs =>
    cases xs with
    | nil => exact ⟨'[', _, rfl, by decide, by decide, by decide⟩
    | cons x xs => exact ⟨'[', _, rfl, by decide, by decide, by decide⟩
  | jobj fs =>
    cases fs with
    | nil => exact ⟨lbrace, _, rfl, by decide, by decide, by decide⟩
    | cons f fs =>
      obtain ⟨k, v⟩ := f
      exact ⟨lbrace, _, rfl, by decide, by decide, by decide⟩

set_option maxHeartbeats 1000000 in
theorem parseVal_print : ∀ fuel : Nat, ∀ v rest, wfB v = true → fuelJ v ≤ fuel →
    notDigitStart rest = true → parseVal fuel (printVal v ++ rest) = some (v, rest) := by
  intro fuel
  induction fuel using Nat.strong_induction_on with
  | _ fuel IH =>
    intro v rest hwf hfu hrest
    match fuel with
    | 0 => exact absurd hfu (by have := fuelJ_pos v; omega)
    | fuel + 1 =>
      cases v with
      | jnull => simp [printVal, parseVal]
      | jbool b => cases b <;> simp [printVal, parseVal]
      | jnum n =>
        cases hpn : printNat n with
        | nil => exact absurd hpn (printNat_ne_nil n)
        | cons c t =>
          have hdig : ∀ x ∈ c :: t, isDigitC x = true := by
            rw [← hpn]; exact printNat_digits n
          have hc : isDigitC c = true := hdig c (List.mem_cons_self c t)
          obtain ⟨h1, h2, h3, h4, h5, h6, -, -, -⟩ := digit_ne c hc
          have hpv : printVal (.jnum n) = c :: t := by
            simp only [printVal]; exact hpn
          rw [hpv, List.cons_append]
          simp only [parseVal, if_neg h1, if_neg h2, if_neg h3, if_neg h4, if_neg h5,
            if_neg h6, if_pos hc]
          have htd : takeDigits (c :: (t ++ rest)) = (c :: t, rest) := by
            rw [← List.cons_append]
            exact takeDigits_append (c :: t) rest hdig hrest
          rw [htd]
          have hval : digitsToNat 0 (c :: t) = n := by
            rw [← hpn]; exact digitsToNat_printNat n
          rw [hval]
      | jstr s =>
        have hsafe : strSafeL s.data = true := by
          simpa only [wfB] using hwf
        have hpv : printVal (.jstr s) ++ rest = '"' :: (s.data ++ '"' :: rest) := by
          simp [printVal, List.append_assoc]
        rw [hpv]
        simp [parseVal, parseStrBody_append s.data rest hsafe, string_mk_data]
      | jarr xs =>
        cases xs with
        | nil => simp [printVal, parseVal, headIs]
        | cons x xs =>
          have hwf' : wfB x = true ∧ wfArr xs = true := by
            simpa only [wfB, wfArr, Bool.and_eq_true] using hwf
          have hfu' : 1 + (fuelJ x + 1 + fuelArr xs) ≤ fuel + 1 := by
            simpa only [fuelJ, fuelArr] using hfu
          have hx1 : 1 ≤ fuelJ x := fuelJ_pos x
          obtain ⟨c0, t0, hpv0, hne0, -, -⟩ := printVal_cons x
          have hpv : printVal (.jarr (x :: xs)) ++ rest
              = '[' :: (printVal x ++ (printArrTail xs ++ ']' :: rest)) := by
            simp [printVal, List.append_assoc]
          rw [hpv]
          simp only [parseVal]
          rw [if_neg (by decide : ¬('[' = 'n')), if_neg (by decide : ¬('[' = 't')),
            if_neg (by decide : ¬('[' = 'f')), if_neg (by decide : ¬('[' = '"'))]
          simp only [if_true]
          have hhead : headIs (printVal x ++ (printArrTail xs ++ ']' :: rest)) ']' = false := by
            rw [hpv0]
            simp [headIs, hne0]
          rw [hhead]
          simp only [Bool.false_eq_true, if_false]
          have hnd : notDigitStart (printArrTail xs ++ ']' :: rest) = true := by
            cases xs with
            | nil => rfl
            | cons y ys => rfl
          have hx := IH fuel (by omega) x (printArrTail xs ++ ']' :: rest) hwf'.1
            (by omega) hnd
          rw [hx]
          cases xs with
          | nil => simp [printArrTail]
          | cons y ys =>
            have hwf2 : wfB (.jarr (y :: ys)) = true := by
              simpa only [wfB] using hwf'.2
            have hfu2 : fuelJ (.jarr (y :: ys)) ≤ fuel := by
              have : fuelJ (.jarr (y :: ys)) = 1 + (fuelJ y + 1 + fuelArr ys) := by
                simp [fuelJ, fuelArr]
              have h3 : 1 + (fuelJ x + 1 + (fuelJ y + 1 + fuelArr ys)) ≤ fuel + 1 := by
                simpa only [fuelArr] using hfu'
              omega
            have harr : ',' :: (printVal y ++ (printArrTail ys ++ ']' :: rest))
                = printArrTail (y :: ys) ++ ']' :: rest := by
              simp [printArrTail, List.append_assoc]
            have hshape : ('[' :: (printVal y ++ (printArrTail ys ++ ']' :: rest)))
                = printVal (.jarr (y :: ys)) ++ rest := by
              simp [printVal, List.append_assoc]
            simp only [printArrTail, List.cons_append, List.append_assoc]
            rw [show printVal y ++ (printArrTail ys ++ (']' :: rest))
                = printVal y ++ printArrTail ys ++ (']' :: rest) from by
              simp [List.append_assoc]]
            rw [show ('[' :: (printVal y ++ printArrTail ys ++ (']' :: rest)))
                = printVal (.jarr (y :: ys)) ++ rest from by
              simp [printVal, List.append_assoc]]
            rw [IH fuel (by omega) (.jarr (y :: ys)) rest hwf2 hfu2 hrest]
      | jobj fs =>
        cases fs with
        | nil =>
          have hpv : printVal (.jobj []) ++ rest = lbrace :: rbrace :: rest := rfl
          rw [hpv]
          simp only [parseVal]
          rw [if_neg (by decide : ¬(lbrace = 'n')), if_neg (by decide : ¬(lbrace = 't')),
            if_neg (by decide : ¬(lbrace = 'f')), if_neg (by decide : ¬(lbrace = '"')),
            if_neg (by decide : ¬(lbrace = '['))]
          simp [headIs]
        | cons f fs =>
          obtain ⟨k, v⟩ := f
          have hwf' : strSafeL k.data = true ∧ wfB v = true ∧ wfObj fs = true := by
            simpa only [wfB, wfObj, Bool.and_eq_true, and_assoc] using hwf
          have hfu' : 1 + (fuelJ v + 1 + fuelObj fs) ≤ fuel + 1 := by
            simpa only [fuelJ, fuelObj] using hfu
          have hv1 : 1 ≤ fuelJ v := fuelJ_pos v
          have hpv : printVal (.jobj ((k, v) :: fs)) ++ rest
              = lbrace :: '"' ::
                  (k.data ++ '"' :: ':' :: (printVal v ++ (printObjTail fs ++ rbrace :: rest))) := by
            simp [printVal, List.append_assoc]
          rw [hpv]
          simp only [parseVal]
          rw [if_neg (by decide : ¬(lbrace = 'n')), if_neg (by decide : ¬(lbrace = 't')),
            if_neg (by decide : ¬(lbrace = 'f')), if_neg (by decide : ¬(lbrace = '"')),
            if_neg (by decide : ¬(lbrace = '['))]
          simp only [if_true]
          have hh : headIs
              ('"' :: (k.data ++ '"' :: ':' :: (printVal v ++ (printObjTail fs ++ rbrace :: rest))))
              rbrace = false := rfl
          rw [hh]
          simp only [Bool.false_eq_true, if_false]
          rw [parseStrBody_append k.data
            (':' :: (printVal v ++ (printObjTail fs ++ rbrace :: rest))) hwf'.1]
          have hnd : notDigitStart (printObjTail fs ++ rbrace :: rest) = true := by
            cases fs with
            | nil => rfl
            | cons g gs =>
              obtain ⟨k2, v2⟩ := g
              rfl
          have hIHv := IH fuel (by omega) v (printObjTail fs ++ rbrace :: rest) hwf'.2.1
            (by omega) hnd
          simp only [hIHv]
          cases fs with
          | nil => simp [printObjTail, string_mk_data, rbrace, lbrace]
          | cons g fs2 =>
            obtain ⟨k2, v2⟩ := g
            have hwf2 : wfB (.jobj ((k2, v2) :: fs2)) = true := by
              simpa only [wfB] using hwf'.2.2
            have hfu2 : fuelJ (.jobj ((k2, v2) :: fs2)) ≤ fuel := by
              have h4 : fuelJ (.jobj ((k2, v2) :: fs2)) = 1 + (fuelJ v2 + 1 + fuelObj fs2) := by
                simp [fuelJ, fuelObj]
              have h3 : 1 + (fuelJ v + 1 + (fuelJ v2 + 1 + fuelObj fs2)) ≤ fuel + 1 := by
                simpa only [fuelObj] using hfu'
              omega
            have hIH2 := IH fuel (by omega) (.jobj ((k2, v2) :: fs2)) rest hwf2 hfu2 hrest
            simp only [printVal, printObjTail, List.cons_append, List.nil_append,
              List.append_assoc] at hIH2 ⊢
            simp [hIH2, string_mk_data]

set_option maxHeartbeats 1000000 in
theorem parseVal_wf : ∀ fuel : Nat, ∀ cs v rest,
    parseVal fuel cs = some (v, rest) → wfB v = true := by
  intro fuel
  induction fuel using Nat.strong_induction_on with
  | _ fuel IH =>
    intro cs v rest h
    match fuel, cs with
    | 0, cs => simp [parseVal] at h
    | fuel + 1, [] => simp [parseVal] at h
    | fuel + 1, c :: cs =>
      simp only [parseVal] at h
      split at h
      · -- literal null
        split at h
        · simp only [Option.some.injEq, Prod.mk.injEq] at h
          obtain ⟨rfl, rfl⟩ := h
          rfl
        · exact Option.noConfusion h
      · split at h
        · -- literal true
          split at h
          · simp only [Option.some.injEq, Prod.mk.injEq] at h
            obtain ⟨rfl, rfl⟩ := h
            rfl
          · exact Option.noConfusion h
        · split at h
          · -- literal false
            split at h
            · simp only [Option.some.injEq, Prod.mk.injEq] at h
              obtain ⟨rfl, rfl⟩ := h
              rfl
            · exact Option.noConfusion h
          · split at h
            · -- string
              split at h
              · rename_i s r hps
                simp only [Option.some.injEq, Prod.mk.injEq] at h
                obtain ⟨rfl, rfl⟩ := h
                simpa only [wfB] using parseStrBody_safe cs s r hps
              · exact Option.noConfusion h
            · split at h
              · -- array
                split at h
                · simp only [Option.some.injEq, Prod.mk.injEq] at h
                  obtain ⟨rfl, rfl⟩ := h
                  rfl
                · split at h
                  · rename_i v1 r hp1
                    split at h
                    · rename_i xs r2 hp2
                      simp only [Option.some.injEq, Prod.mk.injEq] at h
                      obtain ⟨rfl, rfl⟩ := h
                      have h1 := IH fuel (by omega) _ _ _ hp1
                      have h2 := IH fuel (by omega) _ _ _ hp2
                      simp only [wfB, wfArr, Bool.and_eq_true] at h1 h2 ⊢
                      exact ⟨h1, h2⟩
                    · exact Option.noConfusion h
                  · rename_i v1 r hp1
                    simp only [Option.some.injEq, Prod.mk.injEq] at h
                    obtain ⟨rfl, rfl⟩ := h
                    have h1 := IH fuel (by omega) _ _ _ hp1
                    simp only [wfB, wfArr, Bool.and_eq_true]
                    exact ⟨h1, trivial⟩
                  · exact Option.noConfusion h
              · split at h
                · -- object
                  split at h
                  · simp only [Option.some.injEq, Prod.mk.injEq] at h
                    obtain ⟨rfl, rfl⟩ := h
                    rfl
                  · split at h
                    · rename_i r1 hhead
                      clear hhead
                      split at h
                      · rename_i k r2 hpk
                        split at h
                        · rename_i v1 c3 r4 hp1
                          split at h
                          · -- c3 = ',' and a tail object follows
                            split at h
                            · rename_i fs r5 hp2
                              simp only [Option.some.injEq, Prod.mk.injEq] at h
                              obtain ⟨rfl, rfl⟩ := h
                              have hk := parseStrBody_safe r1 k (':' :: r2) hpk
                              have h1 := IH fuel (by omega) _ _ _ hp1
                              have h2 := IH fuel (by omega) _ _ _ hp2
                              simp only [wfB, wfObj, Bool.and_eq_true] at h1 h2 ⊢
                              exact ⟨⟨hk, h1⟩, h2⟩
                            · exact Option.noConfusion h
                          · split at h
                            · -- c3 closes the object
                              simp only [Option.some.injEq, Prod.mk.injEq] at h
                              obtain ⟨rfl, rfl⟩ := h
                              have hk := parseStrBody_safe r1 k (':' :: r2) hpk
                              have h1 := IH fuel (by omega) _ _ _ hp1
                              simp only [wfB, wfObj, Bool.and_eq_true]
                              exact ⟨⟨hk, h1⟩, trivial⟩
                            · exact Option.noConfusion h
                        · exact Option.noConfusion h
                      · exact Option.noConfusion h
                    · exact Option.noConfusion h
                · split at h
                  · -- number
                    simp only [Option.some.injEq, Prod.mk.injEq] at h
                    obtain ⟨rfl, rfl⟩ := h
                    rfl
                  · exact Option.noConfusion h

theorem fuel_le_print : ∀ N : Nat,
    (∀ v : JsonVal, sizeOf v ≤ N → fuelJ v ≤ 2 * (printVal v).length) ∧
    (∀ xs : List JsonVal, sizeOf xs ≤ N → fuelArr xs ≤ 2 * (printArrTail xs).length) ∧
    (∀ fs : List (String × JsonVal), sizeOf fs ≤ N → fuelObj fs ≤ 2 * (printObjTail fs).length) := by
  intro N
  induction N with
  | zero =>
    refine ⟨?_, ?_, ?_⟩
    · intro v hv; exact absurd hv (by cases v <;> simp)
    · intro xs hxs; exact absurd hxs (by cases xs <;> simp)
    · intro fs hfs; exact absurd hfs (by cases fs <;> simp)
  | succ N IH =>
    obtain ⟨IHv, IHa, IHo⟩ := IH
    refine ⟨?_, ?_, ?_⟩
    · intro v hv
      cases v with
      | jnull => simp [fuelJ, printVal]
      | jbool b => cases b <;> simp [fuelJ, printVal]
      | jnum n =>
        have hne := printNat_ne_nil n
        have hlen : 1 ≤ (printNat n).length := by
          cases hpn : printNat n with
          | nil => exact absurd hpn hne
          | cons c t => simp
        simp only [fuelJ, printVal]
        omega
      | jstr s =>
        simp [fuelJ, printVal]
        omega
      | jarr xs =>
        cases xs with
        | nil => simp [fuelJ, fuelArr, printVal]
        | cons x xs =>
          have hx : sizeOf x ≤ N := by
            have h1 : sizeOf (JsonVal.jarr (x :: xs)) = 1 + (1 + sizeOf x + sizeOf xs) := by
              simp
            have h2 : 1 ≤ sizeOf xs := by cases xs <;> simp <;> omega
            omega
          have hxs : sizeOf xs ≤ N := by
            have h1 : sizeOf (JsonVal.jarr (x :: xs)) = 1 + (1 + sizeOf x + sizeOf xs) := by
              simp
            have h2 : 1 ≤ sizeOf x := by cases x <;> simp <;> omega
            omega
          have b1 := IHv x hx
          have b2 := IHa xs hxs
          simp only [fuelJ, fuelArr, printVal, List.length_cons, List.length_append]
          omega
      | jobj fs =>
        cases fs with
        | nil => simp [fuelJ, fuelObj, printVal]
        | cons f fs =>
          obtain ⟨k, v⟩ := f
          have hv' : sizeOf v ≤ N := by
            have h1 : sizeOf (JsonVal.jobj ((k, v) :: fs))
                = 1 + (1 + (1 + sizeOf k + sizeOf v) + sizeOf fs) := by simp
            have h2 : 1 ≤ sizeOf fs := by cases fs <;> simp <;> omega
            have h3 : 1 ≤ sizeOf k := by cases k <;> simp <;> omega
            omega
          have hfs : sizeOf fs ≤ N := by
            have h1 : sizeOf (JsonVal.jobj ((k, v) :: fs))
                = 1 + (1 + (1 + sizeOf k + sizeOf v) + sizeOf fs) := by simp
            have h2 : 1 ≤ sizeOf v := by cases v <;> simp <;> omega
            have h3 : 1 ≤ sizeOf k := by cases k <;> simp <;> omega
            omega
          have b1 := IHv v hv'
          have b2 := IHo fs hfs
          simp only [fuelJ, fuelObj, printVal, List.length_cons, List.length_append]
          omega
    · intro xs hxs
      cases xs with
      | nil => simp [fuelArr, printArrTail]
      | cons x xs =>
        have hx : sizeOf x ≤ N := by
          have h1 : sizeOf (x :: xs) = 1 + sizeOf x + sizeOf xs := by simp
          have h2 : 1 ≤ sizeOf xs := by cases xs <;> simp <;> omega
          omega
        have hxs' : sizeOf xs ≤ N := by
          have h1 : sizeOf (x :: xs) = 1 + sizeOf x + sizeOf xs := by simp
          have h2 : 1 ≤ sizeOf x := by cases x <;> simp <;> omega
          omega
        have b1 := IHv x hx
        have b2 := IHa xs hxs'
        simp only [fuelArr, printArrTail, List.length_cons, List.length_append]
        omega
    · intro fs hfs
      cases fs with
      | nil => simp [fuelObj, printObjTail]
      | cons f fs =>
        obtain ⟨k, v⟩ := f
        have hv' : sizeOf v ≤ N := by
          have h1 : sizeOf ((k, v) :: fs) = 1 + (1 + sizeOf k + sizeOf v) + sizeOf fs := by
            simp
          have h2 : 1 ≤ sizeOf fs := by cases fs <;> simp <;> omega
          have h3 : 1 ≤ sizeOf k := by cases k <;> simp <;> omega
          omega
        have hfs' : sizeOf fs ≤ N := by
          have h1 : sizeOf ((k, v) :: fs) = 1 + (1 + sizeOf k + sizeOf v) + sizeOf fs := by
            simp
          have h2 : 1 ≤ sizeOf v := by cases v <;> simp <;> omega
          have h3 : 1 ≤ sizeOf k := by cases k <;> simp <;> omega
          omega
        have b1 := IHv v hv'
        have b2 := IHo fs hfs'
        simp only [fuelObj, printObjTail, List.length_cons, List.length_append]
        omega

theorem decode_print (v : JsonVal) (hwf : wfB v = true) : decode (printVal v) = some v := by
  have hb : fuelJ v ≤ 2 * (printVal v).length + 2 := by
    have := (fuel_le_print (sizeOf v)).1 v le_rfl
    omega
  have h := parseVal_print (2 * (printVal v).length + 2) v [] hwf hb rfl
  rw [List.append_nil] at h
  unfold decode
  rw [h]

theorem decodeObj_decode (cs : List Char) (m : Obj) (h : decodeObj cs = some m) :
    decode cs = some (.jobj m) := by
  unfold decodeObj at h
  split at h
  · rename_i m0 heq
    simp only [Option.some.injEq] at h
    rw [heq, h]
  · exact Option.noConfusion h

theorem decodeObj_wf (cs : List Char) (m : Obj) (h : decodeObj cs = some m) :
    wfB (.jobj m) = true := by
  have hd := decodeObj_decode cs m h
  unfold decode at hd
  split at hd
  · rename_i v0 heq
    simp only [Option.some.injEq] at hd
    subst hd
    exact parseVal_wf _ _ _ _ heq
  · exact Option.noConfusion hd

theorem runOps_append (rc : ResponseCapture) (l1 l2 : List CaptureOp) :
    runOps rc (l1 ++ l2) = runOps (runOps rc l1) l2 := by
  simp [runOps, List.foldl_append]

theorem runOps_committed (ops : List CaptureOp) : ∀ rc : ResponseCapture,
    rc.wroteHeader = true →
    (runOps rc ops).status = rc.status ∧ (runOps rc ops).wroteHeader = true := by
  induction ops with
  | nil => intro rc h; exact ⟨rfl, h⟩
  | cons op ops IH =>
    intro rc h
    have hstep : (stepOp rc op).status = rc.status ∧ (stepOp rc op).wroteHeader = true := by
      cases op with
      | setHeader k v => exact ⟨rfl, h⟩
      | writeHeader s => simp [stepOp, ResponseCapture.writeHeaderC, h]
      | write b => simp [stepOp, ResponseCapture.writeC, ResponseCapture.writeHeaderC, h]
    have hrest := IH (stepOp rc op) hstep.2
    have hrun : runOps rc (op :: ops) = runOps (stepOp rc op) ops := by
      simp [runOps]
    rw [hrun, hrest.1, hstep.1]
    exact ⟨rfl, hrest.2⟩

theorem runOps_no_statusSet (ops : List CaptureOp) : ∀ rc : ResponseCapture,
    (∀ op ∈ ops, isStatusSet op = false) → rc.status = 200 →
    (runOps rc ops).status = 200 := by
  induction ops with
  | nil => intro rc _ h; exact h
  | cons op ops IH =>
    intro rc hall h
    have hop : isStatusSet op = false := hall op (List.mem_cons_self op ops)
    have hstep : (stepOp rc op).status = 200 := by
      cases op with
      | setHeader k v => exact h
      | writeHeader s => simp [isStatusSet] at hop
      | write b =>
        by_cases hw : rc.wroteHeader <;>
          simp [stepOp, ResponseCapture.writeC, ResponseCapture.writeHeaderC, hw, h]
    have hrun : runOps rc (op :: ops) = runOps (stepOp rc op) ops := by
      simp [runOps]
    rw [hrun]
    exact IH (stepOp rc op) (fun x hx => hall x (List.mem_cons_of_mem op hx)) hstep

theorem runOps_no_commit (ops : List CaptureOp) : ∀ rc : ResponseCapture,
    (∀ op ∈ ops, isStatusSet op = false ∧ isBodyWrite op = false) →
    (runOps rc ops).status = rc.status ∧ (runOps rc ops).wroteHeader = rc.wroteHeader := by
  induction ops with
  | nil => intro rc _; exact ⟨rfl, rfl⟩
  | cons op ops IH =>
    intro rc hall
    have hop := hall op (List.mem_cons_self op ops)
    have hstep : (stepOp rc op).status = rc.status ∧ (stepOp rc op).wroteHeader = rc.wroteHeader := by
      cases op with
      | setHeader k v => exact ⟨rfl, rfl⟩
      | writeHeader s => simp [isStatusSet] at hop
      | write b => simp [isBodyWrite] at hop
    have hrun : runOps rc (op :: ops) = runOps (stepOp rc op) ops := by
      simp [runOps]
    have hrest := IH (stepOp rc op) (fun x hx => hall x (List.mem_cons_of_mem op hx))
    rw [hrun, hrest.1, hrest.2, hstep.1, hstep.2]
    exact ⟨rfl, rfl⟩

/-- C8: the capture sink's status defaults to 200 when the first body write
precedes any explicit status-set; the first `WriteHeader` call commits the
status; and any `WriteHeader` call after commitment is silently ignored. -/
theorem capture_status_commit :
    (∀ (pre : List CaptureOp) (b : List Char) (post : List CaptureOp),
        (∀ op ∈ pre, isStatusSet op = false) →
        (runOps newResponseCapture (pre ++ .write b :: post)).status = 200) ∧
    (∀ (pre : List CaptureOp) (s : Nat) (post : List CaptureOp),
        (∀ op ∈ pre, isStatusSet op = false ∧ isBodyWrite op = false) →
        (runOps newResponseCapture (pre ++ .writeHeader s :: post)).status = s) ∧
    (∀ (rc : ResponseCapture) (s : Nat),
        rc.wroteHeader = true → stepOp rc (.writeHeader s) = rc) := by
  refine ⟨?_, ?_, ?_⟩
  · intro pre b post hpre
    rw [runOps_append]
    set rc1 := runOps newResponseCapture pre with hrc1
    have h200 : rc1.status = 200 := runOps_no_statusSet pre newResponseCapture hpre rfl
    have hrun : runOps rc1 (CaptureOp.write b :: post)
        = runOps (stepOp rc1 (.write b)) post := by
      simp [runOps]
    have hw : (stepOp rc1 (.write b)).status = 200 ∧ (stepOp rc1 (.write b)).wroteHeader = true := by
      by_cases hwh : rc1.wroteHeader <;>
        simp [stepOp, ResponseCapture.writeC, ResponseCapture.writeHeaderC, hwh, h200]
    rw [hrun, (runOps_committed post _ hw.2).1, hw.1]
  · intro pre s post hpre
    rw [runOps_append]
    set rc1 := runOps newResponseCapture pre with hrc1
    have hnc := runOps_no_commit pre newResponseCapture hpre
    have hwh : rc1.wroteHeader = false := hnc.2
    have hrun : runOps rc1 (CaptureOp.writeHeader s :: post)
        = runOps (stepOp rc1 (.writeHeader s)) post := by
      simp [runOps]
    have hw : (stepOp rc1 (.writeHeader s)).status = s
        ∧ (stepOp rc1 (.writeHeader s)).wroteHeader = true := by
      simp [stepOp, ResponseCapture.writeHeaderC, hwh]
    rw [hrun, (runOps_committed post _ hw.2).1, hw.1]
  · intro rc s h
    simp [stepOp, ResponseCapture.writeHeaderC, h]

/-- C8 witness: concrete interactions — a header-set then a body write yields
status 200 even though a 500 status-set follows; a 404 status-set before any
write commits 404 over a later 200; a committed sink ignores WriteHeader. -/
theorem capture_status_commit_witness :
    (runOps newResponseCapture
      [.setHeader "A" "1", .write ['x'], .writeHeader 500, .write ['y']]).status = 200 ∧
    (runOps newResponseCapture
      [.setHeader "B" "2", .writeHeader 404, .writeHeader 200]).status = 404 ∧
    stepOp { header := emptyHeader, status := 404, body := ['x'], wroteHeader := true }
      (.writeHeader 500)
      = { header := emptyHeader, status := 404, body := ['x'], wroteHeader := true } := by
  refine ⟨?_, ?_, ?_⟩
  · exact capture_status_commit.1 [.setHeader "A" "1"] ['x'] [.writeHeader 500, .write ['y']]
      (by intro op h; fin_cases h <;> rfl)
  · exact capture_status_commit.2.1 [.setHeader "B" "2"] 404 [.writeHeader 200]
      (by intro op h; fin_cases h <;> exact ⟨rfl, rfl⟩)
  · exact capture_status_commit.2.2 _ 500 rfl

/-- C9 counterexample: after a body byte has been written to the capture sink,
a header mutation is still accepted into the captured header set. -/
theorem capture_header_after_write_accepted :
    (runOps newResponseCapture [.write ['x'], .setHeader "A" "1"]).body = ['x'] ∧
    (runOps newResponseCapture [.write ['x'], .setHeader "A" "1"]).header "A" = ["1"] := by
  constructor
  · rfl
  · rfl

/-- C9 (amended): the capture sink's `wroteHeader` flag is monotone — once
true it never resets, so it becomes true at most once — but the capture sink
does not enforce the write-once header contract: a `Header().Set` mutation is
accepted into the captured header set even after body bytes were written. -/
theorem capture_flag_monotone_header_live :
    (∀ (rc : ResponseCapture) (ops : List CaptureOp),
        rc.wroteHeader = true → (runOps rc ops).wroteHeader = true) ∧
    (∀ (rc : ResponseCapture) (k v : String),
        (stepOp rc (.setHeader k v)).header k = [v]) := by
  constructor
  · intro rc ops h
    exact (runOps_committed ops rc h).2
  · intro rc k v
    simp [stepOp, hSet]

/-- C9 amended-claim witness: a sink that has already committed keeps the flag
through further interaction, and a post-write header mutation is recorded. -/
theorem capture_flag_monotone_header_live_witness :
    (runOps { header := emptyHeader, status := 200, body := ['x'], wroteHeader := true }
      [.setHeader "C" "3", .write ['z']]).wroteHeader = true ∧
    (stepOp { header := emptyHeader, status := 200, body := ['x'], wroteHeader := true }
      (.setHeader "C" "3")).header "C" = ["3"] := by
  constructor
  · exact capture_flag_monotone_header_live.1 _ [.setHeader "C" "3", .write ['z']] rfl
  · exact capture_flag_monotone_header_live.2 _ "C" "3"

theorem copyAll_empty (src : Header) : copyAll src emptyHeader = src := by
  funext k
  unfold copyAll emptyHeader
  split
  · rename_i h
    exact h.symm
  · rfl

theorem serveHTTP_passthrough (eva : String → Obj → Except String JsonVal)
    (hn : String) (rh : Header) (cap : ResponseCapture)
    (hct : goContains (hGet cap.header "Content-Type") "application/json" = false) :
    serveHTTP eva hn rh cap freshSink
      = ({ header := cap.header, status := some cap.status, body := cap.body }, none) := by
  simp only [serveHTTP, hct, Bool.false_eq_true, if_false]
  simp [freshSink, RealSink.writeHeaderR, RealSink.writeR, copyAll_empty]

theorem serveHTTP_decode_fail (eva : String → Obj → Except String JsonVal)
    (hn : String) (rh : Header) (cap : ResponseCapture) (w : RealSink)
    (hct : goContains (hGet cap.header "Content-Type") "application/json" = true)
    (hm : decodeObj cap.body = none) :
    serveHTTP eva hn rh cap w = (w, some "failed to unmarshal JSON") := by
  simp only [serveHTTP, hct, if_true, hm]

/-- C1: a captured response whose Content-Type does not contain
"application/json" is replayed to the real sink unchanged — same status code,
every (also multi-valued) header, and the exact body bytes — and any supplied
filter query is ignored (the result does not depend on the evaluator, the
filter header name, or the request headers). -/
theorem nonjson_passthrough_identity (eva : String → Obj → Except String JsonVal)
    (hn : String) (rh : Header) (cap : ResponseCapture)
    (hct : goContains (hGet cap.header "Content-Type") "application/json" = false) :
    serveHTTP eva hn rh cap freshSink
      = ({ header := cap.header, status := some cap.status, body := cap.body }, none) :=
  serveHTTP_passthrough eva hn rh cap hct

/-- C1 witness: a text/plain response with a two-valued Set-Cookie header and
a supplied query is replayed byte- and header-identical. -/
theorem nonjson_passthrough_identity_witness :
    serveHTTP dotPathEval "X-JsonPath" reqB capText freshSink
      = ({ header := capText.header, status := some 201, body := ['h', 'i'] }, none) :=
  nonjson_passthrough_identity dotPathEval "X-JsonPath" reqB capText (by decide)

/-- C3 counterexample: the Content-Type check is case-sensitive, so
"Application/JSON; charset=utf-8" is NOT treated as JSON: with a query
supplied and a body that is not valid JSON, the response passes through
unchanged with no error, where the claim predicts it would be filtered. -/
theorem uppercase_content_type_not_filtered :
    goContains "Application/JSON; charset=utf-8" "application/json" = false ∧
    (serveHTTP dotPathEval "X-JsonPath" reqB capUpper freshSink).2 = none ∧
    (serveHTTP dotPathEval "X-JsonPath" reqB capUpper freshSink).1.body
      = String.toList "not json" := by
  refine ⟨by decide, ?_, ?_⟩
  · rfl
  · rfl

/-- C3 (amended): the JSON decision is a case-SENSITIVE substring match of the
Content-Type value against "application/json": values containing that exact
lowercase substring (also with parameters appended) are treated as JSON and
go through decoding/filtering, and all other values — including upper- or
mixed-case spellings — are passed through unchanged. -/
theorem content_type_decision (eva : String → Obj → Except String JsonVal)
    (hn : String) (rh : Header) (cap : ResponseCapture) :
    (goContains (hGet cap.header "Content-Type") "application/json" = false →
      serveHTTP eva hn rh cap freshSink
        = ({ header := cap.header, status := some cap.status, body := cap.body }, none)) ∧
    (goContains (hGet cap.header "Content-Type") "application/json" = true →
      decodeObj cap.body = none →
      serveHTTP eva hn rh cap freshSink = (freshSink, some "failed to unmarshal JSON")) := by
  constructor
  · intro hct
    exact serveHTTP_passthrough eva hn rh cap hct
  · intro hct hm
    exact serveHTTP_decode_fail eva hn rh cap freshSink hct hm

/-- C3 amended-claim witness: a lowercase content type with a charset
parameter is decoded (and fails on a non-JSON body), and the uppercase
variant passes through. -/
theorem content_type_decision_witness :
    serveHTTP dotPathEval "X-JsonPath" reqB capBad freshSink
      = (freshSink, some "failed to unmarshal JSON") ∧
    serveHTTP dotPathEval "X-JsonPath" reqB capUpper freshSink
      = ({ header := capUpper.header, status := some 200,
           body := String.toList "not json" }, none) := by
  constructor
  · exact (content_type_decision dotPathEval "X-JsonPath" reqB capBad).2
      (by decide) (by rfl)
  · exact (content_type_decision dotPathEval "X-JsonPath" reqB capUpper).1 (by decide)

/-- C2 counterexample: the body `1` is valid JSON (a scalar document), the
content type is application/json and no query is supplied, yet the middleware
fails to decode it (the decode target is an object map) and returns an error
instead of emitting a decode-equal body. -/
theorem scalar_document_rejected :
    decode ['1'] = some (.jnum 1) ∧
    serveHTTP dotPathEval "X-JsonPath" emptyHeader capScalar freshSink
      = (freshSink, some "failed to unmarshal JSON") := by
  constructor
  · rfl
  · rfl

/-- C2 (amended): for a JSON-typed response whose body decodes as a JSON
OBJECT, with no filter query supplied, the middleware succeeds and the emitted
body is JSON-decode-equal to the captured body; documents whose top-level
value is an array or a scalar fail to decode into the object map and produce a
decode error instead. -/
theorem nofilter_decode_equal (eva : String → Obj → Except String JsonVal)
    (hn : String) (rh : Header) (cap : ResponseCapture) (m : Obj)
    (hct : goContains (hGet cap.header "Content-Type") "application/json" = true)
    (hm : decodeObj cap.body = some m)
    (hq : hGet rh hn = "") :
    (serveHTTP eva hn rh cap freshSink).2 = none ∧
    decode ((serveHTTP eva hn rh cap freshSink).1.body) = some (.jobj m) := by
  have hfo : filterOutput eva hn rh m = .ok (.jobj m) := by
    simp [filterOutput, hq]
  have hbody : (serveHTTP eva hn rh cap freshSink).1.body = printVal (.jobj m) ∧
      (serveHTTP eva hn rh cap freshSink).2 = none := by
    simp only [serveHTTP, hct, if_true, hm, hfo]
    simp [freshSink, RealSink.writeHeaderR, RealSink.writeR]
  refine ⟨hbody.2, ?_⟩
  rw [hbody.1]
  exact decode_print _ (decodeObj_wf _ _ hm)

/-- C2 amended-claim witness: body `\x7b"a":1\x7d` with no query is re-emitted
decode-equal. -/
theorem nofilter_decode_equal_witness :
    (serveHTTP dotPathEval "X-JsonPath" emptyHeader capSmall freshSink).2 = none ∧
    decode ((serveHTTP dotPathEval "X-JsonPath" emptyHeader capSmall freshSink).1.body)
      = some (.jobj [("a", .jnum 1)]) :=
  nofilter_decode_equal dotPathEval "X-JsonPath" emptyHeader capSmall [("a", .jnum 1)]
    (by decide) (by rfl) (by rfl)

/-- C4: for a JSON-object response and a query the evaluator resolves to a
sub-object, the middleware succeeds: the emitted body is the re-encoded
sub-object, the emitted Content-Type is application/json, and the status is
the captured one. -/
theorem query_subobject_filtered (eva : String → Obj → Except String JsonVal)
    (hn : String) (rh : Header) (cap : ResponseCapture) (m sub : Obj) (q : String)
    (hct : goContains (hGet cap.header "Content-Type") "application/json" = true)
    (hm : decodeObj cap.body = some m)
    (hq : hGet rh hn = q) (hqne : q ≠ "")
    (he : eva q m = .ok (.jobj sub)) :
    (serveHTTP eva hn rh cap freshSink).2 = none ∧
    (serveHTTP eva hn rh cap freshSink).1.body = printVal (.jobj sub) ∧
    hGet (serveHTTP eva hn rh cap freshSink).1.header "Content-Type" = "application/json" ∧
    (serveHTTP eva hn rh cap freshSink).1.status = some cap.status := by
  have hfo : filterOutput eva hn rh m = .ok (.jobj sub) := by
    simp [filterOutput, hq, hqne, applyJSONPathFilter, he]
  simp only [serveHTTP, hct, if_true, hm, hfo]
  simp [freshSink, RealSink.writeHeaderR, RealSink.writeR, hGet, hDel, hSet]

/-- C4 witness: the spec's concrete scenario — body `\x7b"a":1,"b":\x7b"c":2\x7d\x7d`,
query `$.b` — yields the body `\x7b"c":2\x7d`, content type application/json, and
the captured status. -/
theorem query_subobject_filtered_witness :
    (serveHTTP dotPathEval "X-JsonPath" reqB capNested freshSink).2 = none ∧
    (serveHTTP dotPathEval "X-JsonPath" reqB capNested freshSink).1.body
      = printVal (.jobj [("c", .jnum 2)]) ∧
    hGet (serveHTTP dotPathEval "X-JsonPath" reqB capNested freshSink).1.header "Content-Type"
      = "application/json" ∧
    (serveHTTP dotPathEval "X-JsonPath" reqB capNested freshSink).1.status = some 200 :=
  query_subobject_filtered dotPathEval "X-JsonPath" reqB capNested
    [("a", .jnum 1), ("b", .jobj [("c", .jnum 2)])] [("c", .jnum 2)] "$.b"
    (by decide) (by rfl) (by rfl) (by decide) (by rfl)

theorem serveHTTP_json_error (eva : String → Obj → Except String JsonVal)
    (hn : String) (rh : Header) (cap : ResponseCapture) (w : RealSink) (m : Obj) (e : String)
    (hct : goContains (hGet cap.header "Content-Type") "application/json" = true)
    (hm : decodeObj cap.body = some m)
    (hfo : filterOutput eva hn rh m = .error e) :
    serveHTTP eva hn rh cap w = (w, some e) := by
  simp only [serveHTTP, hct, if_true, hm, hfo]

theorem serveHTTP_json_ok (eva : String → Obj → Except String JsonVal)
    (hn : String) (rh : Header) (cap : ResponseCapture) (m : Obj) (output : JsonVal)
    (hct : goContains (hGet cap.header "Content-Type") "application/json" = true)
    (hm : decodeObj cap.body = some m)
    (hfo : filterOutput eva hn rh m = .ok output) :
    serveHTTP eva hn rh cap freshSink
      = ({ header := hDel (hSet (copyAll cap.header emptyHeader)
             "Content-Type" "application/json") "Content-Length",
           status := some cap.status,
           body := printVal output }, none) := by
  simp only [serveHTTP, hct, if_true, hm, hfo]
  simp [freshSink, RealSink.writeHeaderR, RealSink.writeR]

/-- C5: whenever the JSON-typed branch emits a response, every captured header
except Content-Type and Content-Length reaches the real sink unchanged,
Content-Length is removed (not left stale), Content-Type is forced to
"application/json", and the status is exactly the captured one. -/
theorem filtered_response_frame (eva : String → Obj → Except String JsonVal)
    (hn : String) (rh : Header) (cap : ResponseCapture)
    (hct : goContains (hGet cap.header "Content-Type") "application/json" = true)
    (hok : (serveHTTP eva hn rh cap freshSink).2 = none) :
    (∀ k, k ≠ "Content-Type" → k ≠ "Content-Length" →
        (serveHTTP eva hn rh cap freshSink).1.header k = cap.header k) ∧
    (serveHTTP eva hn rh cap freshSink).1.header "Content-Length" = [] ∧
    (serveHTTP eva hn rh cap freshSink).1.header "Content-Type" = ["application/json"] ∧
    (serveHTTP eva hn rh cap freshSink).1.status = some cap.status := by
  cases hm : decodeObj cap.body with
  | none =>
    rw [serveHTTP_decode_fail eva hn rh cap freshSink hct hm] at hok
    exact absurd hok (by simp)
  | some m =>
    cases hfo : filterOutput eva hn rh m with
    | error e =>
      rw [serveHTTP_json_error eva hn rh cap freshSink m e hct hm hfo] at hok
      exact absurd hok (by simp)
    | ok output =>
      rw [serveHTTP_json_ok eva hn rh cap m output hct hm hfo]
      refine ⟨?_, ?_, ?_, ?_⟩
      · intro k hk1 hk2
        simp only [hDel, hSet, if_neg hk2, if_neg hk1, copyAll_empty]
      · simp [hDel]
      · simp [hDel, hSet]
      · rfl

/-- C5 witness: a captured JSON response with a stale Content-Length, a
charset-bearing content type and a two-valued trace header is re-emitted with
the trace header intact, Content-Length dropped, Content-Type forced, and
status 203 preserved. -/
theorem filtered_response_frame_witness :
    (serveHTTP dotPathEval "X-JsonPath" emptyHeader capSmall freshSink).1.header "X-Trace"
      = ["t1", "t2"] ∧
    (serveHTTP dotPathEval "X-JsonPath" emptyHeader capSmall freshSink).1.header "Content-Length"
      = [] ∧
    (serveHTTP dotPathEval "X-JsonPath" emptyHeader capSmall freshSink).1.header "Content-Type"
      = ["application/json"] ∧
    (serveHTTP dotPathEval "X-JsonPath" emptyHeader capSmall freshSink).1.status = some 203 := by
  have h := filtered_response_frame dotPathEval "X-JsonPath" emptyHeader capSmall
    (by decide) (by rfl)
  refine ⟨?_, h.2.1, h.2.2.1, h.2.2.2⟩
  have := h.1 "X-Trace" (by decide) (by decide)
  rw [this]
  rfl

/-- C6: for a JSON-typed response, when the evaluator rejects the supplied
query (malformed query or no matching path), the middleware propagates a
query-failure error and the real sink receives nothing — the unfiltered
document is never silently returned. -/
theorem query_failure_not_silent (eva : String → Obj → Except String JsonVal)
    (hn : String) (rh : Header) (cap : ResponseCapture) (w : RealSink)
    (m : Obj) (q e : String)
    (hct : goContains (hGet cap.header "Content-Type") "application/json" = true)
    (hm : decodeObj cap.body = some m)
    (hq : hGet rh hn = q) (hqne : q ≠ "")
    (he : eva q m = .error e) :
    serveHTTP eva hn rh cap w = (w, some ("JSONPath query failed: " ++ e)) := by
  have hfo : filterOutput eva hn rh m = .error ("JSONPath query failed: " ++ e) := by
    simp [filterOutput, hq, hqne, applyJSONPathFilter, he]
  exact serveHTTP_json_error eva hn rh cap w m _ hct hm hfo

/-- C6 witness: the query `$.nonexistent` against body `\x7b"a":1\x7d` produces a
query failure and leaves the sink untouched. -/
theorem query_failure_not_silent_witness :
    serveHTTP dotPathEval "X-JsonPath" reqNX capSmall freshSink
      = (freshSink, some ("JSONPath query failed: " ++ "unknown key nonexistent")) :=
  query_failure_not_silent dotPathEval "X-JsonPath" reqNX capSmall freshSink
    [("a", .jnum 1)] "$.nonexistent" "unknown key nonexistent"
    (by decide) (by rfl) (by rfl) (by decide) (by rfl)

/-- C7: for a JSON-typed response, when the evaluator succeeds but the matched
value is not a JSON object (a scalar or an array), the middleware returns the
shape-mismatch error instead of emitting the matched value. -/
theorem shape_mismatch_rejected (eva : String → Obj → Except String JsonVal)
    (hn : String) (rh : Header) (cap : ResponseCapture) (w : RealSink)
    (m : Obj) (q : String) (r : JsonVal)
    (hct : goContains (hGet cap.header "Content-Type") "application/json" = true)
    (hm : decodeObj cap.body = some m)
    (hq : hGet rh hn = q) (hqne : q ≠ "")
    (he : eva q m = .ok r) (hr : ∀ o : Obj, r ≠ .jobj o) :
    serveHTTP eva hn rh cap w = (w, some "JSONPath query did not return an object") := by
  have happ : applyJSONPathFilter eva m q
      = .error "JSONPath query did not return an object" := by
    cases r with
    | jobj o => exact absurd rfl (hr o)
    | jnull => simp [applyJSONPathFilter, he]
    | jbool b => simp [applyJSONPathFilter, he]
    | jnum n => simp [applyJSONPathFilter, he]
    | jstr s => simp [applyJSONPathFilter, he]
    | jarr xs => simp [applyJSONPathFilter, he]
  have hfo : filterOutput eva hn rh m
      = .error "JSONPath query did not return an object" := by
    simp [filterOutput, hq, hqne, happ]
  exact serveHTTP_json_error eva hn rh cap w m _ hct hm hfo

/-- C7 witness: the query `$.a` on body `\x7b"a":1\x7d` matches the scalar 1, which
is rejected as a shape mismatch. -/
theorem shape_mismatch_rejected_witness :
    serveHTTP dotPathEval "X-JsonPath" reqA capSmall freshSink
      = (freshSink, some "JSONPath query did not return an object") :=
  shape_mismatch_rejected dotPathEval "X-JsonPath" reqA capSmall freshSink
    [("a", .jnum 1)] "$.a" (.jnum 1)
    (by decide) (by rfl) (by rfl) (by decide) (by rfl)
    (fun o h => JsonVal.noConfusion h)

/-- C10: whenever the middleware returns an error to its caller (decode
failure, query failure, or shape mismatch), the real sink is exactly as it
was: no status, no headers and no body bytes were written by this handler. -/
theorem error_abort_sink_untouched (eva : String → Obj → Except String JsonVal)
    (hn : String) (rh : Header) (cap : ResponseCapture) (w w' : RealSink) (e : String)
    (h : serveHTTP eva hn rh cap w = (w', some e)) : w' = w := by
  by_cases hct : goContains (hGet cap.header "Content-Type") "application/json" = true
  · cases hm : decodeObj cap.body with
    | none =>
      rw [serveHTTP_decode_fail eva hn rh cap w hct hm] at h
      simp only [Prod.mk.injEq] at h
      exact h.1.symm
    | some m =>
      cases hfo : filterOutput eva hn rh m with
      | error e0 =>
        rw [serveHTTP_json_error eva hn rh cap w m e0 hct hm hfo] at h
        simp only [Prod.mk.injEq] at h
        exact h.1.symm
      | ok output =>
        have hnone : (serveHTTP eva hn rh cap w).2 = none := by
          simp [serveHTTP, hct, hm, hfo]
        rw [h] at hnone
        exact absurd hnone (by simp)
  · have hctf : goContains (hGet cap.header "Content-Type") "application/json" = false := by
      simpa using hct
    have hnone : (serveHTTP eva hn rh cap w).2 = none := by
      simp [serveHTTP, hctf]
    rw [h] at hnone
    exact absurd hnone (by simp)

/-- C10 witness: a JSON-typed response with an undecodable body aborts with
the decode error while a sink that already held a byte stays exactly as it
was. -/
theorem error_abort_sink_untouched_witness :
    (serveHTTP dotPathEval "X-JsonPath" reqB capBad wPrior).2
      = some "failed to unmarshal JSON" ∧
    (serveHTTP dotPathEval "X-JsonPath" reqB capBad wPrior).1 = wPrior := by
  constructor
  · rfl
  · exact error_abort_sink_untouched dotPathEval "X-JsonPath" reqB capBad wPrior
      (serveHTTP dotPathEval "X-JsonPath" reqB capBad wPrior).1
      "failed to unmarshal JSON" (by rfl)
